import Mathlib

/-!
Shallow embedding of the training-engine core of this repository:
`src/lightnet/engine/_parameter.py` (class `HyperParameters`) and
`src/lightnet/engine/engine.py` (class `Engine`), together with theorems
checking the specification's claims about them.

Modelling conventions:
* Python attribute dictionaries are insertion-ordered association lists.
* State snapshots of collaborators (network / optimizer / scheduler
  `state_dict()` results) are treated as values of an abstract token type,
  modelled by `Nat`; tensors keep only what `HyperParameters.to` observes
  (their device and the device of an optional gradient buffer).
* Lines emitted through the module loggers are modelled as explicit lists.
* Code that can raise returns `Except String`.
-/

/-- A plain Python value stored as an attribute (hyperparameter values,
engine keyword attributes, serialized fields). -/
inductive PVal where
  | pnat : Nat → PVal
  | pstr : String → PVal
  | pbool : Bool → PVal
deriving DecidableEq

/-- A tensor, reduced to what `HyperParameters.to` observes: its device and
the device of its gradient buffer when one is present. -/
structure Tensor where
  dev : String
  grad : Option String

/-- A value inside an optimizer's `state` dictionary or a scheduler's
`__dict__`: a tensor, a nested dictionary (one level; only its values are
ever iterated, so keys are dropped), or some other object. -/
inductive StVal where
  | tensor : Tensor → StVal
  | dict : List StVal → StVal
  | other : Nat → StVal

/-- An optimizer: its `state_dict()` snapshot token and the values of its
`state` dictionary (walked by `HyperParameters.to`). -/
structure Optim where
  sd : Nat
  state : List StVal

/-- A scheduler: its `state_dict()` snapshot token and the values of its
`__dict__` (walked by `HyperParameters.to`). -/
structure Sched where
  sd : Nat
  attrs : List StVal

/-- The network: its `state_dict()` snapshot token and its device. -/
structure Network where
  sd : Nat
  dev : String
deriving DecidableEq

/-- An `optimizers`/`schedulers` constructor argument: `None`, a single
object, or an iterable of objects. -/
inductive ObjArg (β : Type) where
  | absent : ObjArg β
  | single : β → ObjArg β
  | iterable : List β → ObjArg β

/-- `HyperParameters.__init__`: `None` and iterables are stored as given, a
single object is wrapped into a one-element list. -/
def normalizeArg : ObjArg β → Option (List β)
  | .absent => none
  | .single x => some [x]
  | .iterable xs => some xs

/-- First-match lookup in an insertion-ordered association list
(a Python dictionary / object `__dict__` read). -/
def lookupA [DecidableEq κ] : List (κ × β) → κ → Option β
  | [], _ => none
  | (k, v) :: rest, key => if k = key then some v else lookupA rest key

/-- Replace the first binding of `key` in place, or append a new one
(a Python dictionary / `setattr` write). -/
def updateA [DecidableEq κ] : List (κ × β) → κ → β → List (κ × β)
  | [], key, v => [(key, v)]
  | (k, w) :: rest, key, v =>
    if k = key then (key, v) :: rest else (k, w) :: updateA rest key v

/-- Python `x in xs` for a list of strings. -/
def strElem (s : String) : List String → Bool
  | [] => false
  | x :: rest => if x = s then true else strElem s rest

/-- Python `xs.remove(x)`: drop the first occurrence. -/
def eraseFirst (s : String) : List String → List String
  | [] => []
  | x :: rest => if x = s then rest else x :: eraseFirst s rest

/-- Whether a call completed without raising. -/
def exIsOk : Except ε β → Bool
  | .ok _ => true
  | .error _ => false

deriving instance DecidableEq for Except

/-- The `HyperParameters` container (`_parameter.py`).  `vars` holds the
plain-valued instance attributes in insertion order (`batch_size`, `batch`,
`epoch`, `mini_batch_size`, then extra keyword fields); the object-valued
attributes `network`, `optimizers`, `schedulers` and the private exclusion
list `__no_serialize` are kept as separate structure fields.  `warnings`
models the lines emitted through the module logger. -/
structure HyperParameters where
  network : Network
  optimizers : Option (List Optim)
  schedulers : Option (List Sched)
  vars : List (String × PVal)
  noSerialize : List String
  warnings : List String

/-- Result of a successful Python attribute read on a `HyperParameters`
object (plain value, collaborator object, or bound method). -/
inductive AttrVal where
  | ofVal : PVal → AttrVal
  | ofNetwork : Network → AttrVal
  | ofOptims : Option (List Optim) → AttrVal
  | ofScheds : Option (List Sched) → AttrVal
  | ofOptim : Optim → AttrVal
  | ofSched : Sched → AttrVal
  | ofBool : Bool → AttrVal
  | ofNat : Nat → AttrVal
  | ofParams : HyperParameters → AttrVal
  | ofMethod : String → AttrVal

/-- Read a `pnat`-valued attribute from `vars`. -/
def hpVarNat (hp : HyperParameters) (name : String) : Option Nat :=
  match lookupA hp.vars name with
  | some (.pnat n) => some n
  | _ => none

/-- The `batch_subdivisions` property: `batch_size // mini_batch_size`.
`none` models the property raising (non-integer operands or division by
zero), which makes `hasattr` report `False`. -/
def HyperParameters.batch_subdivisions (hp : HyperParameters) : Option Nat :=
  match hpVarNat hp "batch_size", hpVarNat hp "mini_batch_size" with
  | some b, some m => if m = 0 then none else some (b / m)
  | _, _ => none

/-- Python `getattr` on a `HyperParameters` object: the object-valued
attributes, the `optimizer` / `scheduler` / `batch_subdivisions` properties,
the public methods, then the plain-valued instance attributes.  A property
getter that raises is collapsed to `none` here; `hasattr` swallows only
`AttributeError`, so where the raise is observable — the keyword loop of
the constructor — the fallible `hpHasattrE` below is used instead. -/
def hpGetattr (hp : HyperParameters) (name : String) : Option AttrVal :=
  if name = "network" then some (.ofNetwork hp.network)
  else if name = "optimizers" then some (.ofOptims hp.optimizers)
  else if name = "schedulers" then some (.ofScheds hp.schedulers)
  else if name = "optimizer" then
    match hp.optimizers with
    | some (o :: _) => some (.ofOptim o)
    | _ => none
  else if name = "scheduler" then
    match hp.schedulers with
    | some (s :: _) => some (.ofSched s)
    | _ => none
  else if name = "batch_subdivisions" then
    (hp.batch_subdivisions).map (fun n => .ofVal (.pnat n))
  else if name = "save" ∨ name = "load" ∨ name = "to" then some (.ofMethod name)
  else (lookupA hp.vars name).map .ofVal

/-- Python `hasattr` on a `HyperParameters` object, on the paths where no
property getter raises a non-`AttributeError` (the raising paths are
covered by `hpHasattrE`). -/
def pyHasattr (hp : HyperParameters) (name : String) : Bool :=
  (hpGetattr hp name).isSome

/-- Python `hasattr(self, name)` on a `HyperParameters` object, exception
propagation included: `getattr` either finds a value (`ok true`), raises
`AttributeError` (`ok false`), or a property getter raises another
exception, which `hasattr` does not swallow (`error`): the `optimizer` /
`scheduler` getters subscript a `None` or empty sequence
(`TypeError` / `IndexError`), and the `batch_subdivisions` getter divides
by zero or by a non-integer (a missing operand attribute is an
`AttributeError`, hence `ok false`). -/
def hpHasattrE (hp : HyperParameters) (name : String) : Except String Bool :=
  if name = "optimizer" then
    match hp.optimizers with
    | none => .error "TypeError: NoneType object is not subscriptable"
    | some [] => .error "IndexError: list index out of range"
    | some (_ :: _) => .ok true
  else if name = "scheduler" then
    match hp.schedulers with
    | none => .error "TypeError: NoneType object is not subscriptable"
    | some [] => .error "IndexError: list index out of range"
    | some (_ :: _) => .ok true
  else if name = "batch_subdivisions" then
    match lookupA hp.vars "batch_size", lookupA hp.vars "mini_batch_size" with
    | none, _ => .ok false
    | _, none => .ok false
    | some (.pnat _), some (.pnat 0) =>
      .error "ZeroDivisionError: integer division or modulo by zero"
    | some (.pnat _), some (.pnat _) => .ok true
    | some _, some _ => .error "TypeError: unsupported operand type for floordiv"
  else .ok (pyHasattr hp name)

/-- The second half of one iteration of the keyword loop of
`HyperParameters.__init__`: if `key` is not yet an attribute it is set;
otherwise a warning is logged, the original value is kept, and `key` is
removed from `__no_serialize` if present there. -/
def setOrWarn (hp : HyperParameters) (key : String) (v : PVal) :
    HyperParameters :=
  if pyHasattr hp key then
    { hp with
        warnings := hp.warnings ++ [key],
        noSerialize :=
          if strElem key hp.noSerialize then eraseFirst key hp.noSerialize
          else hp.noSerialize }
  else
    { hp with vars := hp.vars ++ [(key, v)] }

/-- `key.startswith('_')`: whether a keyword name carries the exclusion
marker. -/
def isExclKey (s : String) : Bool :=
  match s.data with
  | '_' :: _ => true
  | _ => false

/-- The name a keyword field is stored under: `key[1:]` when the key starts
with the exclusion marker, the key itself otherwise. -/
def strippedKey (s : String) : String :=
  match s.data with
  | '_' :: rest => String.mk rest
  | _ => s

/-- One iteration of the keyword loop of `HyperParameters.__init__`: a key
starting with the exclusion prefix `_` is stripped to `key[1:]` and that
stripped name is appended to `__no_serialize`; then the attribute is set or
the collision is warned about. -/
def processKwarg (hp : HyperParameters) (kw : String × PVal) : HyperParameters :=
  let key := strippedKey kw.1
  let hp1 := if isExclKey kw.1 then
      { hp with noSerialize := hp.noSerialize ++ [key] } else hp
  setOrWarn hp1 key kw.2

/-- One iteration of the keyword loop as the program runs it: the
`hasattr(self, key)` call can raise (propagating out of the constructor);
when it does not, the iteration is exactly `processKwarg`. -/
def processKwargE (hp : HyperParameters) (kw : String × PVal) :
    Except String HyperParameters :=
  match hpHasattrE
      (if isExclKey kw.1 then
        { hp with noSerialize := hp.noSerialize ++ [strippedKey kw.1] } else hp)
      (strippedKey kw.1) with
  | .error e => .error e
  | .ok _ => .ok (processKwarg hp kw)

/-- `HyperParameters.__init__`.  The order of the source is kept: the
divisibility check on `mini_batch_size` raises before `optimizers` /
`schedulers` are normalized; `__no_serialize` starts with the three
object-valued names; extra keyword fields are processed last, through the
fallible loop iteration (the `hasattr` call there can raise). -/
def mkHyperParameters (network : Network) (optimizers : ObjArg Optim)
    (schedulers : ObjArg Sched) (batch_size : Nat)
    (mini_batch_size : Option Nat) (kwargs : List (String × PVal)) :
    Except String HyperParameters :=
  let check : Except String Nat :=
    match mini_batch_size with
    | none => .ok batch_size
    | some m =>
      if m > batch_size then .ok batch_size
      else if batch_size % m ≠ 0 then
        .error "batch_size should be a multiple of mini_batch_size"
      else .ok m
  match check with
  | .error e => .error e
  | .ok mbs =>
    let hp0 : HyperParameters :=
      { network := network
        optimizers := normalizeArg optimizers
        schedulers := normalizeArg schedulers
        vars := [("batch_size", .pnat batch_size), ("batch", .pnat 0),
                 ("epoch", .pnat 0), ("mini_batch_size", .pnat mbs)]
        noSerialize := ["network", "optimizers", "schedulers"]
        warnings := [] }
    kwargs.foldlM processKwargE hp0

/-- The single keyed record written by `HyperParameters.save`: all fields of
`vars(self)` not listed in `__no_serialize` (which always includes the
instance's own `_HyperParameters__no_serialize` list, since that name is
never in the exclusion list), the network snapshot under the reserved key
`network`, and the per-optimizer / per-scheduler snapshot sequences under
`optimizers` / `schedulers` when the respective sequence is not `None`. -/
structure SavedRecord where
  fields : List (String × PVal)
  savedNoSerialize : List String
  networkState : Nat
  optStates : Option (List Nat)
  schedStates : Option (List Nat)

/-- `HyperParameters.save`. -/
def HyperParameters.save (hp : HyperParameters) : SavedRecord :=
  { fields := hp.vars.filter (fun p => !(strElem p.1 hp.noSerialize))
    savedNoSerialize := hp.noSerialize
    networkState := hp.network.sd
    optStates := hp.optimizers.map (fun os => os.map Optim.sd)
    schedStates := hp.schedulers.map (fun ss => ss.map Sched.sd) }

/-- `optim.load_state_dict(optim_state[i])` for `i, optim` in
`enumerate(xs)`: positional restore; indexing past the end of the snapshot
sequence raises `IndexError`. -/
def restoreAll (restore : β → Nat → β) : List β → List Nat → Except String (List β)
  | [], _ => .ok []
  | _ :: _, [] => .error "IndexError: list index out of range"
  | x :: xs, s :: ss => (restoreAll restore xs ss).map (fun ys => restore x s :: ys)

/-- `setattr(self, key, value)` for a plain-valued field. -/
def hpSetattr (hp : HyperParameters) (key : String) (v : PVal) : HyperParameters :=
  { hp with vars := updateA hp.vars key v }

/-- The optimizer-restoring step of `HyperParameters.load`: skipped when
`self.optimizers` is `None`; otherwise `state.pop('optimizers')` raises
`KeyError` when the record has no such key. -/
def loadOptims (hp : HyperParameters) (r : SavedRecord) :
    Except String HyperParameters :=
  match hp.optimizers with
  | none => .ok hp
  | some os =>
    match r.optStates with
    | none => .error "KeyError: optimizers"
    | some sts =>
      (restoreAll (fun o s => { o with sd := s }) os sts).map
        (fun os' => { hp with optimizers := some os' })

/-- The scheduler-restoring step of `HyperParameters.load`. -/
def loadScheds (hp : HyperParameters) (r : SavedRecord) :
    Except String HyperParameters :=
  match hp.schedulers with
  | none => .ok hp
  | some ss =>
    match r.schedStates with
    | none => .error "KeyError: schedulers"
    | some sts =>
      (restoreAll (fun s st => { s with sd := st }) ss sts).map
        (fun ss' => { hp with schedulers := some ss' })

/-- `HyperParameters.load`: restore the network state, then the optimizer
and scheduler states positionally, then write every remaining key of the
record (including the saved `_HyperParameters__no_serialize` list) back
onto the store with `setattr`.  The `strict` flag only tunes key matching
inside the opaque network snapshot and is below this abstraction. -/
def HyperParameters.load (hp : HyperParameters) (r : SavedRecord)
    (_strict : Bool) : Except String HyperParameters :=
  (loadOptims { hp with network := { hp.network with sd := r.networkState } }
      r).bind (fun hp2 =>
    (loadScheds hp2 r).bind (fun hp3 =>
      .ok { r.fields.foldl (fun h kv => hpSetattr h kv.1 kv.2) hp3 with
            noSerialize := r.savedNoSerialize }))

/-- Migrate one tensor: `param.data = param.data.to(device)` and, when a
gradient buffer is present, `param._grad.data = param._grad.data.to(device)`. -/
def migrateTensor (device : String) (t : Tensor) : Tensor :=
  { dev := device, grad := t.grad.map (fun _ => device) }

/-- The inner walk of `HyperParameters.to`: migrate a tensor, leave
everything else untouched (no recursion into further nesting). -/
def migrateSub (device : String) : StVal → StVal
  | .tensor t => .tensor (migrateTensor device t)
  | v => v

/-- The outer walk of `HyperParameters.to` over an optimizer's `state`
values: migrate a tensor; for a dictionary, migrate its tensor values one
level down; leave anything else untouched. -/
def migrateParam (device : String) : StVal → StVal
  | .tensor t => .tensor (migrateTensor device t)
  | .dict subs => .dict (subs.map (migrateSub device))
  | v => v

/-- `HyperParameters.to`: move the network, then every tensor at most two
levels deep inside each optimizer's `state`, then every top-level tensor
attribute of each scheduler.  Iterating `self.optimizers` (resp.
`self.schedulers`) raises `TypeError` when it is `None`; the raise happens
after the network has already been moved. -/
def HyperParameters.to (hp : HyperParameters) (device : String) :
    Except String HyperParameters :=
  let hpn : HyperParameters := { hp with network := { hp.network with dev := device } }
  match hpn.optimizers with
  | none => .error "TypeError: NoneType object is not iterable"
  | some opts =>
    let hpo : HyperParameters := { hpn with
      optimizers := some (opts.map (fun o =>
        { o with state := o.state.map (migrateParam device) })) }
    match hpo.schedulers with
    | none => .error "TypeError: NoneType object is not iterable"
    | some scheds =>
      .ok { hpo with
        schedulers := some (scheds.map (fun s =>
          { s with attrs := s.attrs.map (migrateSub device) })) }

/-- One of the four class-level hook tables of `Engine`: an
insertion-ordered dictionary from interval to the list of callbacks
registered under that interval, in registration order.  Callbacks are
opaque handles of type `α`. -/
abbrev HookTable (α : Type) := List (Nat × List α)

/-- One of the four `@classmethod` registration decorators
(`Engine.epoch_start` etc.): append the callback to the list keyed by the
interval, creating the list if the interval is new.  The decorator returns
the callback unchanged, so only the table update is modelled. -/
def registerHook (t : HookTable α) (k : Nat) (f : α) : HookTable α :=
  if (lookupA t k).isSome then
    t.map (fun p => if p.1 = k then (p.1, p.2 ++ [f]) else p)
  else t ++ [(k, [f])]

/-- `Engine._run_hooks(value, hooks)`: walk the table in first-insertion
key order; for every interval dividing the counter value, invoke its
callbacks in registration order.  The result is the invocation sequence
(each callback is called with no arguments or with the engine, a
distinction below this abstraction). -/
def runHooks (v : Nat) : HookTable α → List α
  | [] => []
  | (k, fns) :: rest =>
    if v % k = 0 then fns ++ runHooks v rest else runHooks v rest

/-- The four hook tables, as they exist as class attributes. -/
structure Registry (α : Type) where
  epochStart : HookTable α
  epochEnd : HookTable α
  batchStart : HookTable α
  batchEnd : HookTable α
deriving DecidableEq

/-- Which of the four tables a registration targets. -/
inductive TableKind where
  | epochStart | epochEnd | batchStart | batchEnd
deriving DecidableEq

/-- Apply a registration to the chosen table of a registry object. -/
def Registry.register (r : Registry α) (tk : TableKind) (k : Nat) (f : α) :
    Registry α :=
  match tk with
  | .epochStart => { r with epochStart := registerHook r.epochStart k f }
  | .epochEnd => { r with epochEnd := registerHook r.epochEnd k f }
  | .batchStart => { r with batchStart := registerHook r.batchStart k f }
  | .batchEnd => { r with batchEnd := registerHook r.batchEnd k f }

/-- Python class-attribute state for the hook tables: the base `Engine`
class owns the four dictionaries created in its class body; a subclass owns
tables only if it shadows them with its own class attributes, which the
source never does (`own` stays empty: registration mutates the found dict
objects in place and never assigns a class attribute). -/
structure ClassState (α : Type) where
  base : Registry α
  own : List (String × Registry α)
deriving DecidableEq

/-- The tables as they start in the `Engine` class body: four empty dicts
on the base class, no subclass shadowing anything. -/
def initialClassState (α : Type) : ClassState α :=
  { base := { epochStart := [], epochEnd := [], batchStart := [], batchEnd := [] }
    own := [] }

/-- Python attribute resolution for `cls._epoch_start` etc.: a subclass
without its own tables resolves to the base class's dict objects. -/
def resolveRegistry (cs : ClassState α) (cls : String) : Registry α :=
  (lookupA cs.own cls).getD cs.base

/-- Registering through subclass `cls` (`cls._table[interval].append(fn)` /
`cls._table[interval] = [fn]`): both operations are in-place mutations of
the dict object found by attribute resolution, so when `cls` owns no
tables they mutate the base class's shared dicts. -/
def registerVia (cs : ClassState α) (cls : String) (tk : TableKind)
    (k : Nat) (f : α) : ClassState α :=
  match lookupA cs.own cls with
  | some r => { cs with own := updateA cs.own cls (r.register tk k f) }
  | none => { cs with base := cs.base.register tk k f }

/-- An `Engine` instance (`engine.py`).  `extras` holds the keyword
attributes set in `__init__`; `warnings` the lines warned through the
module logger.  The epoch/batch counters live in `params`, reached through
the attribute bridge. -/
structure EngineObj where
  params : HyperParameters
  dataloader : Option Nat
  sigint : Bool
  extras : List (String × PVal)
  warnings : List String

/-- Names resolved on the `Engine` class itself (methods, the class-level
flags and tables) plus the private logger attribute set in `__init__`. -/
def engineClassNames : List String :=
  ["start", "process_batch", "train_batch", "quit", "log", "_init_done",
   "_epoch_start", "_epoch_end", "_batch_start", "_batch_end", "_Engine__log"]

/-- Normal (non-`__getattr__`) Python attribute resolution on an `Engine`
instance: instance fields first, then class-level names. -/
def engineNative (e : EngineObj) (name : String) : Option AttrVal :=
  if name = "params" then some (.ofParams e.params)
  else if name = "sigint" then some (.ofBool e.sigint)
  else if name = "dataloader" then e.dataloader.map .ofNat
  else if strElem name engineClassNames then some (.ofMethod name)
  else (lookupA e.extras name).map .ofVal

/-- `Engine.__getattr__` (called only when normal resolution fails):
forward to the parameter store when it has the attribute, otherwise raise
`AttributeError`. -/
def engineGetattrFallback (e : EngineObj) (name : String) :
    Except String AttrVal :=
  match hpGetattr e.params name with
  | some v => .ok v
  | none => .error (name ++ " attribute does not exist")

/-- A complete attribute read on an `Engine` instance: normal resolution,
falling back to `__getattr__`. -/
def engineReadAttr (e : EngineObj) (name : String) : Except String AttrVal :=
  match engineNative e name with
  | some v => .ok v
  | none => engineGetattrFallback e name

/-- One iteration of the keyword loop of `Engine.__init__`: set the
attribute when `hasattr(self, key)` is false (which consults the attribute
bridge), otherwise warn and keep everything unchanged. -/
def engineAddKwarg (e : EngineObj) (kw : String × PVal) : EngineObj :=
  if exIsOk (engineReadAttr e kw.1) then
    { e with warnings := e.warnings ++ [kw.1] }
  else
    { e with extras := e.extras ++ [(kw.1, kw.2)] }

/-- `Engine.__init__`: store the params and the dataloader (warning when
none is given), initialize `sigint` to `False`, install the signal handler
(ambient), then set the keyword attributes. -/
def mkEngine (params : HyperParameters) (dataloader : Option Nat)
    (kwargs : List (String × PVal)) : EngineObj :=
  kwargs.foldl engineAddKwarg
    { params := params
      dataloader := dataloader
      sigint := false
      extras := []
      warnings :=
        if dataloader.isNone then
          ["No dataloader given, make sure to have a self.dataloader property for this engine to work with."]
        else [] }

/-- `Engine.__sigint_handler`: on a signal, when the flag is not yet set,
log the graceful-exit notice and set it; otherwise do nothing.  The second
component is the module log. -/
def sigintHandler (e : EngineObj) (logLines : List String) :
    EngineObj × List String :=
  if e.sigint = false then
    ({ e with sigint := true },
     logLines ++ ["SIGINT caught. Waiting for gracefull exit"])
  else (e, logLines)

/-- Observable events of the training loop `Engine.__call__`, in program
order.  The hook events record a call of `_run_hooks` with the counter
value passed to it. -/
inductive Event where
  | epochStartHooks : Nat → Event
  | batchStartHooks : Nat → Event
  | processBatch : Nat → Event
  | trainBatch : Event
  | batchEndHooks : Nat → Event
  | epochEndHooks : Nat → Event
deriving DecidableEq

/-- Result of one epoch's batch loop: its event trace, the final batch
counter, and whether the loop returned from the whole training cycle
(`quit()` / `sigint`) rather than falling out of the epoch. -/
structure BatchRun where
  trace : List Event
  batch : Nat
  returned : Bool
deriving DecidableEq

/-- The `for idx, data in enumerate(loader)` body of `Engine.__call__` for
one epoch.  `S` is `batch_subdivisions`, `N` is `len(loader)`; `fuel`
counts the elements still to be enumerated (the loop starts with
`fuel = N`, `idx = 0`).  `quitO i` / `sigintO i` give the results of the
cooperative `self.quit()` / `self.sigint` checks at the `i`-th completed
accumulation batch of the epoch (the only points where they are polled).
Per mini-batch: increment the batch counter, dispatch batch-start hooks
with it, process the mini-batch; when the mini-batch does not complete an
accumulation batch, decrement the counter back and continue; otherwise run
`train_batch`, dispatch batch-end hooks, return on `quit()`/`sigint`, and
break when fewer than `batch_subdivisions` mini-batches would remain. -/
def runBatches (S N : Nat) (quitO sigintO : Nat → Bool) :
    Nat → Nat → Nat → BatchRun
  | 0, _, batch => { trace := [], batch := batch, returned := false }
  | fuel + 1, idx, batch =>
    if (idx + 1) % S ≠ 0 then
      let r := runBatches S N quitO sigintO fuel (idx + 1) (batch + 1 - 1)
      { r with trace := .batchStartHooks (batch + 1) :: .processBatch idx :: r.trace }
    else
      if quitO ((idx + 1) / S) || sigintO ((idx + 1) / S) then
        { trace := [.batchStartHooks (batch + 1), .processBatch idx,
                    .trainBatch, .batchEndHooks (batch + 1)]
          batch := batch + 1, returned := true }
      else if N - idx ≤ S then
        { trace := [.batchStartHooks (batch + 1), .processBatch idx,
                    .trainBatch, .batchEndHooks (batch + 1)]
          batch := batch + 1, returned := false }
      else
        let r := runBatches S N quitO sigintO fuel (idx + 1) (batch + 1)
        { r with trace := .batchStartHooks (batch + 1) :: .processBatch idx ::
            .trainBatch :: .batchEndHooks (batch + 1) :: r.trace }

/-- The batch loop of one epoch, started as `Engine.__call__` starts it:
at `idx = 0` with the current batch counter `b0`. -/
def epochBatchRun (S N b0 : Nat) (quitO sigintO : Nat → Bool) : BatchRun :=
  runBatches S N quitO sigintO N 0 b0

def isTrainEvent : Event → Bool
  | .trainBatch => true
  | _ => false

def isProcessEvent : Event → Bool
  | .processBatch _ => true
  | _ => false

def isStartEvent : Event → Bool
  | .batchStartHooks _ => true
  | _ => false

/-- Number of `train_batch` invocations (completed accumulation batches)
in a trace. -/
def countTrain (t : List Event) : Nat := t.countP isTrainEvent

/-- Number of mini-batches processed in a trace. -/
def countProcess (t : List Event) : Nat := t.countP isProcessEvent

/-- Number of batch-start hook dispatches in a trace. -/
def countStart (t : List Event) : Nat := t.countP isStartEvent

/-- The (mini-batch index, batch counter value) pairs of the batch-start
hook dispatches of a trace: every `process_batch(data)` for index `i` is
immediately preceded by its `_run_hooks(batch, _batch_start)` call with
value `v`. -/
def startValues : List Event → List (Nat × Nat)
  | .batchStartHooks v :: .processBatch i :: rest => (i, v) :: startValues rest
  | _ :: rest => startValues rest
  | [] => []

/-! ### Concrete objects used by witnesses and counterexamples -/

/-- A concrete network. -/
def net0 : Network := { sd := 0, dev := "cpu" }

/-- The store built by
`HyperParameters(net0, batch_size=1, foo=1)`: the extra field `foo` is
serializable. -/
def hpFoo : HyperParameters :=
  { network := net0, optimizers := none, schedulers := none
    vars := [("batch_size", .pnat 1), ("batch", .pnat 0), ("epoch", .pnat 0),
             ("mini_batch_size", .pnat 1), ("foo", .pnat 1)]
    noSerialize := ["network", "optimizers", "schedulers"]
    warnings := [] }

/-- The store built by
`HyperParameters(net0, batch_size=1, _foo=2)`: the extra field `foo` is
excluded from serialization. -/
def hpFooExcluded : HyperParameters :=
  { network := net0, optimizers := none, schedulers := none
    vars := [("batch_size", .pnat 1), ("batch", .pnat 0), ("epoch", .pnat 0),
             ("mini_batch_size", .pnat 1), ("foo", .pnat 2)]
    noSerialize := ["network", "optimizers", "schedulers", "foo"]
    warnings := [] }

/-- A concrete engine over `hpFoo` with a dataloader of 10 mini-batches. -/
def engFoo : EngineObj :=
  { params := hpFoo, dataloader := some 10, sigint := false
    extras := [], warnings := [] }

/-- A concrete hook table with two callbacks registered under interval 2. -/
def tableTwo : HookTable Nat := [(2, [10, 11])]

/-! ### Helper lemmas -/

theorem strElem_iff (s : String) (l : List String) :
    strElem s l = true ↔ s ∈ l := by
  induction l with
  | nil => simp [strElem]
  | cons x rest ih =>
    by_cases h : x = s
    · subst h; simp [strElem]
    · simp only [strElem, if_neg h, ih, List.mem_cons]
      exact ⟨Or.inr, fun hc => hc.elim (fun he => absurd he.symm h) id⟩

theorem strElem_eq_false (s : String) (l : List String) :
    strElem s l = false ↔ s ∉ l := by
  rw [← strElem_iff]
  cases strElem s l <;> simp

theorem strElem_append (s : String) (l1 l2 : List String) :
    strElem s (l1 ++ l2) = (strElem s l1 || strElem s l2) := by
  induction l1 with
  | nil => simp [strElem]
  | cons x rest ih => by_cases h : x = s <;> simp [strElem, h, ih]

theorem eraseFirst_append (s : String) (l1 l2 : List String) :
    eraseFirst s (l1 ++ l2) =
      if strElem s l1 then eraseFirst s l1 ++ l2
      else l1 ++ eraseFirst s l2 := by
  induction l1 with
  | nil => simp [strElem, eraseFirst]
  | cons x rest ih =>
    by_cases h : x = s
    · simp [strElem, eraseFirst, h]
    · simp only [List.cons_append, strElem, eraseFirst, if_neg h, List.append_eq]
      rw [ih]
      by_cases hr : strElem s rest = true
      · simp [hr]
      · simp [hr]

theorem strElem_eraseFirst_self (s : String) (l : List String)
    (h : l.Nodup) : strElem s (eraseFirst s l) = false := by
  induction l with
  | nil => simp [eraseFirst, strElem]
  | cons x rest ih =>
    rcases List.nodup_cons.mp h with ⟨hx, hrest⟩
    by_cases hxs : x = s
    · subst hxs
      simp only [eraseFirst, if_pos rfl]
      exact (strElem_eq_false x rest).mpr hx
    · simp only [eraseFirst, if_neg hxs, strElem, if_neg hxs]
      exact ih hrest

theorem lookupA_append_left [DecidableEq κ] (l1 l2 : List (κ × β)) (k : κ)
    (v : β) (h : lookupA l1 k = some v) : lookupA (l1 ++ l2) k = some v := by
  induction l1 with
  | nil => simp [lookupA] at h
  | cons p rest ih =>
    obtain ⟨k0, w⟩ := p
    by_cases h0 : k0 = k
    · simpa [lookupA, h0] using h
    · simp only [lookupA, if_neg h0, List.cons_append] at h ⊢
      exact ih h

theorem lookupA_eq_none_of_not_mem_keys [DecidableEq κ] (l : List (κ × β))
    (k : κ) (h : k ∉ l.map Prod.fst) : lookupA l k = none := by
  induction l with
  | nil => simp [lookupA]
  | cons p rest ih =>
    obtain ⟨k0, w⟩ := p
    simp only [List.map_cons, List.mem_cons] at h
    push_neg at h
    have hne : k0 ≠ k := fun he => h.1 he.symm
    simp only [lookupA, if_neg hne]
    exact ih h.2

theorem lookupA_of_mem_nodup [DecidableEq κ] (l : List (κ × β)) (k : κ)
    (v : β) (hnd : (l.map Prod.fst).Nodup) (hm : (k, v) ∈ l) :
    lookupA l k = some v := by
  induction l with
  | nil => simp at hm
  | cons p rest ih =>
    obtain ⟨k0, w⟩ := p
    simp only [List.map_cons] at hnd
    rcases List.nodup_cons.mp hnd with ⟨hk0, hrest⟩
    rcases List.mem_cons.mp hm with he | hm'
    · injection he with h1 h2
      subst h1
      subst h2
      simp [lookupA]
    · have hne : k0 ≠ k := by
        intro he
        subst he
        exact hk0 (List.mem_map.mpr ⟨(k0, v), hm', rfl⟩)
      simp only [lookupA, if_neg hne]
      exact ih hrest hm'

theorem lookupA_updateA_self [DecidableEq κ] (l : List (κ × β)) (k : κ)
    (v : β) : lookupA (updateA l k v) k = some v := by
  induction l with
  | nil => simp [updateA, lookupA]
  | cons p rest ih =>
    obtain ⟨k0, w⟩ := p
    by_cases h0 : k0 = k
    · simp [updateA, lookupA, h0]
    · simp only [updateA, if_neg h0, lookupA, if_neg h0]
      exact ih

theorem lookupA_updateA_ne [DecidableEq κ] (l : List (κ × β)) (k k' : κ)
    (v : β) (h : k ≠ k') : lookupA (updateA l k v) k' = lookupA l k' := by
  induction l with
  | nil => simp [updateA, lookupA, h]
  | cons p rest ih =>
    obtain ⟨k0, w⟩ := p
    by_cases h0 : k0 = k
    · subst h0
      simp [updateA, lookupA, h]
    · simp only [updateA, if_neg h0, lookupA]
      by_cases h1 : k0 = k' <;> simp [h1, ih]

theorem foldl_updateA_none [DecidableEq κ] (L : List (κ × β))
    (st : List (κ × β)) (k : κ) (h : lookupA L k = none) :
    lookupA (L.foldl (fun vs kv => updateA vs kv.1 kv.2) st) k
      = lookupA st k := by
  induction L generalizing st with
  | nil => simp
  | cons p rest ih =>
    obtain ⟨k0, v0⟩ := p
    by_cases h0 : k0 = k
    · simp [lookupA, h0] at h
    · simp only [lookupA, if_neg h0] at h
      simp only [List.foldl_cons]
      rw [ih _ h, lookupA_updateA_ne _ _ _ _ h0]

theorem foldl_updateA_some [DecidableEq κ] (L : List (κ × β))
    (st : List (κ × β)) (k : κ) (v : β) (hnd : (L.map Prod.fst).Nodup)
    (h : lookupA L k = some v) :
    lookupA (L.foldl (fun vs kv => updateA vs kv.1 kv.2) st) k = some v := by
  induction L generalizing st with
  | nil => simp [lookupA] at h
  | cons p rest ih =>
    obtain ⟨k0, v0⟩ := p
    simp only [List.map_cons] at hnd
    rcases List.nodup_cons.mp hnd with ⟨hk0, hrest⟩
    by_cases h0 : k0 = k
    · subst h0
      simp [lookupA] at h
      have hnone : lookupA rest k0 = none :=
        lookupA_eq_none_of_not_mem_keys _ _ hk0
      simp only [List.foldl_cons]
      rw [foldl_updateA_none _ _ _ hnone, lookupA_updateA_self, h]
    · simp only [lookupA, if_neg h0] at h
      simp only [List.foldl_cons]
      exact ih _ hrest h

theorem mem_runHooks (v : Nat) (t : HookTable α) (f : α) :
    f ∈ runHooks v t ↔ ∃ k fs, (k, fs) ∈ t ∧ f ∈ fs ∧ v % k = 0 := by
  induction t with
  | nil => simp [runHooks]
  | cons p rest ih =>
    obtain ⟨k0, fs0⟩ := p
    by_cases h0 : v % k0 = 0
    · simp only [runHooks, if_pos h0, List.mem_append, ih, List.mem_cons]
      constructor
      · rintro (hf | ⟨k, fs, hm, hf, hv⟩)
        · exact ⟨k0, fs0, Or.inl rfl, hf, h0⟩
        · exact ⟨k, fs, Or.inr hm, hf, hv⟩
      · rintro ⟨k, fs, he | hm, hf, hv⟩
        · injection he with h1 h2
          subst h1; subst h2
          exact Or.inl hf
        · exact Or.inr ⟨k, fs, hm, hf, hv⟩
    · simp only [runHooks, if_neg h0, ih, List.mem_cons]
      constructor
      · rintro ⟨k, fs, hm, hf, hv⟩
        exact ⟨k, fs, Or.inr hm, hf, hv⟩
      · rintro ⟨k, fs, he | hm, hf, hv⟩
        · injection he with h1 h2
          subst h1; subst h2
          exact absurd hv h0
        · exact ⟨k, fs, hm, hf, hv⟩

theorem engineAddKwarg_sigint (e : EngineObj) (kw : String × PVal) :
    (engineAddKwarg e kw).sigint = e.sigint := by
  unfold engineAddKwarg
  split <;> rfl

theorem foldl_engineAddKwarg_sigint (kwargs : List (String × PVal))
    (e : EngineObj) : (kwargs.foldl engineAddKwarg e).sigint = e.sigint := by
  induction kwargs generalizing e with
  | nil => rfl
  | cons kw rest ih => rw [List.foldl_cons, ih, engineAddKwarg_sigint]

theorem mkEngine_sigint (params : HyperParameters) (dl : Option Nat)
    (kwargs : List (String × PVal)) : (mkEngine params dl kwargs).sigint = false := by
  unfold mkEngine
  rw [foldl_engineAddKwarg_sigint]

theorem processKwargE_of_hasattr_ok (hp : HyperParameters)
    (kw : String × PVal) (b : Bool)
    (h : hpHasattrE
        (if isExclKey kw.1 then
          { hp with noSerialize := hp.noSerialize ++ [strippedKey kw.1] }
        else hp) (strippedKey kw.1) = .ok b) :
    processKwargE hp kw = .ok (processKwarg hp kw) := by
  unfold processKwargE
  rw [h]

/-! ### Claim theorems -/

/-- C2 (counterexample): hook registries are not isolated per orchestrator
subtype.  Starting from the pristine class state (empty tables on the base
`Engine` class, no subclass shadowing them), registering an epoch-start
hook at interval 1 through subtype `SubA` changes the tables that a
different subtype `SubB` resolves, because both resolve to the base
class's shared dict objects, which the registration mutates in place. -/
theorem claim_C2_counterexample :
    ¬ (resolveRegistry
        (registerVia (initialClassState Nat) "SubA" .epochStart 1 0) "SubB"
      = resolveRegistry (initialClassState Nat) "SubB") := by decide

/-- C2 (amended): as long as no subclass shadows the four tables with its
own class attributes (which the source never does), registering a hook
through any orchestrator subtype mutates the single table set owned by the
base `Engine` class, and therefore every subtype — the registering one and
all others alike, together with all of their present and future instances,
which read the tables from the class — observes the registration. -/
theorem claim_C2_registration_shared (α : Type) (cs : ClassState α)
    (cls cls' : String) (tk : TableKind) (k : Nat) (f : α)
    (hown : cs.own = []) :
    resolveRegistry (registerVia cs cls tk k f) cls'
      = (resolveRegistry cs cls').register tk k f := by
  unfold registerVia resolveRegistry
  rw [hown]
  simp [lookupA]

/-- Witness for C2: the amended statement applied at a concrete input. -/
theorem claim_C2_witness :
    resolveRegistry
        (registerVia (initialClassState Nat) "SubA" .batchEnd 2 7) "SubB"
      = (resolveRegistry (initialClassState Nat) "SubB").register .batchEnd 2 7 :=
  claim_C2_registration_shared Nat (initialClassState Nat) "SubA" "SubB"
    .batchEnd 2 7 rfl

/-- C4: for positive `batch_size` and `mini_batch_size`, construction of
the parameter store (with no extra keyword fields: their `hasattr` checks
can raise for reasons independent of the two sizes) raises the
configuration error if and only if `mini_batch_size ≤ batch_size` and
`batch_size % mini_batch_size ≠ 0`; when `mini_batch_size > batch_size`
construction succeeds and the stored `mini_batch_size` is silently clamped
to `batch_size`. -/
theorem claim_C4_construction_failure_iff (network : Network)
    (oa : ObjArg Optim) (sa : ObjArg Sched) (bs mbs : Nat)
    (hbs : 0 < bs) (hmbs : 0 < mbs) :
    (exIsOk (mkHyperParameters network oa sa bs (some mbs) []) = false
      ↔ mbs ≤ bs ∧ bs % mbs ≠ 0) ∧
    (bs < mbs →
      (mkHyperParameters network oa sa bs (some mbs) []).map
        (fun hp => hpVarNat hp "mini_batch_size") = .ok (some bs)) := by
  unfold mkHyperParameters
  by_cases h1 : mbs > bs
  · simp only [if_pos h1, List.foldlM, exIsOk, Except.map]
    constructor
    · constructor
      · intro hc; exact absurd hc (by simp [pure, Except.pure])
      · rintro ⟨hle, _⟩; omega
    · intro _
      simp [pure, Except.pure, hpVarNat, lookupA]
  · by_cases h2 : bs % mbs = 0
    · simp only [if_neg h1, if_neg (by omega : ¬ bs % mbs ≠ 0), List.foldlM,
        exIsOk, Except.map]
      constructor
      · constructor
        · intro hc; exact absurd hc (by simp [pure, Except.pure])
        · rintro ⟨_, hmod⟩; exact absurd h2 hmod
      · intro hlt; omega
    · simp only [if_neg h1, if_pos (by omega : bs % mbs ≠ 0), exIsOk]
      constructor
      · constructor
        · intro _; exact ⟨by omega, h2⟩
        · intro _; trivial
      · intro hlt; omega

/-- Witness for C4: at `batch_size = 8` the construction raises for
`mini_batch_size = 3` but not for `mini_batch_size = 4`, and
`mini_batch_size = 12 > 8` is clamped to 8. -/
theorem claim_C4_witness :
    (exIsOk (mkHyperParameters net0 .absent .absent 8 (some 3) []) = false
      ∧ (3 ≤ 8 ∧ 8 % 3 ≠ 0)) ∧
    (exIsOk (mkHyperParameters net0 .absent .absent 8 (some 4) []) = true) ∧
    ((mkHyperParameters net0 .absent .absent 8 (some 12) []).map
        (fun hp => hpVarNat hp "mini_batch_size") = .ok (some 8)) :=
  ⟨⟨(claim_C4_construction_failure_iff net0 .absent .absent 8 3
      (by decide) (by decide)).1.mpr ⟨by decide, by decide⟩, by decide, by decide⟩,
   by decide,
   (claim_C4_construction_failure_iff net0 .absent .absent 8 12
      (by decide) (by decide)).2 (by decide)⟩

/-- C7: `self.sigint` starts `False` at engine construction; the handler
sets it and logs the graceful-exit notice on the first signal, is a strict
no-op on a signal while the flag is already set, and two consecutive
signals therefore log the notice exactly once. -/
theorem claim_C7_sigint_idempotent (params : HyperParameters)
    (dl : Option Nat) (kwargs : List (String × PVal)) (e : EngineObj)
    (logLines : List String) :
    (mkEngine params dl kwargs).sigint = false ∧
    (e.sigint = false →
      sigintHandler e logLines =
        ({ e with sigint := true },
         logLines ++ ["SIGINT caught. Waiting for gracefull exit"])) ∧
    (e.sigint = true → sigintHandler e logLines = (e, logLines)) ∧
    (e.sigint = false →
      sigintHandler (sigintHandler e logLines).1 (sigintHandler e logLines).2
        = ({ e with sigint := true },
           logLines ++ ["SIGINT caught. Waiting for gracefull exit"])) := by
  refine ⟨mkEngine_sigint params dl kwargs, ?_, ?_, ?_⟩
  · intro h; simp [sigintHandler, h]
  · intro h; simp [sigintHandler, h]
  · intro h; simp [sigintHandler, h]

/-- Witness for C7: on the concrete engine `engFoo` the double signal
leaves one notice in the log and the flag set. -/
theorem claim_C7_witness :
    (mkEngine hpFoo (some 10) []).sigint = false ∧
    sigintHandler (sigintHandler engFoo []).1 (sigintHandler engFoo []).2
      = ({ engFoo with sigint := true },
         ["SIGINT caught. Waiting for gracefull exit"]) :=
  ⟨(claim_C7_sigint_idempotent hpFoo (some 10) [] engFoo []).1,
   (claim_C7_sigint_idempotent hpFoo (some 10) [] engFoo []).2.2.2 rfl⟩

/-- C8: an attribute read on the engine for a name that normal (native)
resolution does not know goes through `__getattr__`: it returns the
parameter store's value when the store has the name and raises
`AttributeError` when the store does not. -/
theorem claim_C8_attribute_bridge_read (e : EngineObj) (name : String)
    (hnative : engineNative e name = none) :
    (∀ v, hpGetattr e.params name = some v →
      engineReadAttr e name = .ok v) ∧
    (hpGetattr e.params name = none →
      engineReadAttr e name = .error (name ++ " attribute does not exist")) := by
  constructor
  · intro v hv
    simp [engineReadAttr, hnative, engineGetattrFallback, hv]
  · intro hv
    simp [engineReadAttr, hnative, engineGetattrFallback, hv]

/-- Witness for C8: on `engFoo`, reading `foo` (unknown to the engine,
exposed by the store) yields the store's value, and reading `bar` (unknown
to both) raises. -/
theorem claim_C8_witness :
    engineReadAttr engFoo "foo" = .ok (.ofVal (.pnat 1)) ∧
    engineReadAttr engFoo "bar"
      = .error ("bar" ++ " attribute does not exist") :=
  ⟨(claim_C8_attribute_bridge_read engFoo "foo" rfl).1 _ rfl,
   (claim_C8_attribute_bridge_read engFoo "bar" rfl).2 rfl⟩

/-- C9: although construction permits both `optimizers` and `schedulers`
to be absent, `HyperParameters.to` iterates both sequences unconditionally,
so on any store where either is `None` it raises `TypeError` (it never
degrades to migrating only the network). -/
theorem claim_C9_to_requires_optimizers_and_schedulers
    (hp : HyperParameters) (device : String)
    (h : hp.optimizers = none ∨ hp.schedulers = none) :
    exIsOk (mkHyperParameters hp.network .absent .absent 1 none []) = true ∧
    exIsOk (hp.to device) = false := by
  refine ⟨rfl, ?_⟩
  unfold HyperParameters.to
  rcases h with h | h
  · simp [h, exIsOk]
  · cases ho : hp.optimizers with
    | none => simp [exIsOk]
    | some opts => simp [h, exIsOk]

/-- Witness for C9: `hpFoo` was constructed with both sequences absent and
its migration raises. -/
theorem claim_C9_witness :
    exIsOk (mkHyperParameters hpFoo.network .absent .absent 1 none []) = true ∧
    exIsOk (hpFoo.to "cuda") = false :=
  claim_C9_to_requires_optimizers_and_schedulers hpFoo "cuda" (Or.inl rfl)

theorem pyHasattr_set_noSerialize (hp : HyperParameters) (ns : List String)
    (name : String) :
    pyHasattr { hp with noSerialize := ns } name = pyHasattr hp name := rfl

/-- C3 (counterexample): a collision from an extra field without the
exclusion prefix changes the serialization status of the colliding field.
Constructing with the extra field `network = 7` collides with the built-in
(excluded) `network` field: the warning is logged and the value kept, but
the collision handler removes `network` from the exclusion list, whereas
without the collision `network` stays excluded. -/
theorem claim_C3_counterexample :
    ¬ ((mkHyperParameters net0 .absent .absent 1 none [("network", .pnat 7)]).map
          (fun hp => strElem "network" hp.noSerialize)
        = (mkHyperParameters net0 .absent .absent 1 none []).map
          (fun hp => strElem "network" hp.noSerialize)) ∧
    (mkHyperParameters net0 .absent .absent 1 none [("network", .pnat 7)]).map
        (fun hp => (hp.network, hp.warnings, strElem "network" hp.noSerialize))
      = .ok (net0, (["network"], false)) ∧
    (mkHyperParameters net0 .absent .absent 1 none []).map
        (fun hp => strElem "network" hp.noSerialize) = .ok true := by
  refine ⟨by decide, by decide, by decide⟩

theorem setOrWarn_collision (hp : HyperParameters) (key : String) (v : PVal)
    (h : pyHasattr hp key = true) :
    setOrWarn hp key v =
      { hp with
          warnings := hp.warnings ++ [key],
          noSerialize :=
            if strElem key hp.noSerialize then eraseFirst key hp.noSerialize
            else hp.noSerialize } := by
  unfold setOrWarn
  rw [h]
  simp

/-- C3 (amended): for every extra field whose (stripped) name collides with
an already-existing attribute, a warning is logged and the original field's
value is unchanged (the attribute dictionary and the three object-valued
attributes are untouched); the serialization status is unchanged when the
keyword carries the exclusion prefix (the append and the removal cancel),
but a collision from an unprefixed keyword with a currently-excluded field
removes the exclusion, flipping that field to serializable. -/
theorem claim_C3_collision_keeps_value_not_status (hp : HyperParameters)
    (kw : String × PVal) (hnd : hp.noSerialize.Nodup)
    (hcol : pyHasattr hp (strippedKey kw.1) = true) :
    (processKwarg hp kw).vars = hp.vars ∧
    (processKwarg hp kw).network = hp.network ∧
    (processKwarg hp kw).optimizers = hp.optimizers ∧
    (processKwarg hp kw).schedulers = hp.schedulers ∧
    (processKwarg hp kw).warnings = hp.warnings ++ [strippedKey kw.1] ∧
    strElem (strippedKey kw.1) (processKwarg hp kw).noSerialize
      = (isExclKey kw.1 && strElem (strippedKey kw.1) hp.noSerialize) := by
  unfold processKwarg
  by_cases he : isExclKey kw.1 = true
  · simp only [he, if_true]
    rw [setOrWarn_collision _ _ _ (by rw [pyHasattr_set_noSerialize]; exact hcol)]
    refine ⟨rfl, rfl, rfl, rfl, rfl, ?_⟩
    have hkey : strElem (strippedKey kw.1)
        (hp.noSerialize ++ [strippedKey kw.1]) = true := by
      rw [strElem_append]
      simp [strElem]
    simp only [hkey, if_true]
    rw [eraseFirst_append]
    by_cases hns : strElem (strippedKey kw.1) hp.noSerialize = true
    · simp only [hns, if_true, strElem_append]
      simp [strElem]
    · rw [Bool.not_eq_true] at hns
      simp only [hns, Bool.false_eq_true, if_false]
      rw [strElem_append]
      simp only [eraseFirst, if_pos rfl]
      simp [strElem, hns]
  · rw [Bool.not_eq_true] at he
    simp only [he, Bool.false_eq_true, if_false]
    rw [setOrWarn_collision _ _ _ hcol]
    refine ⟨rfl, rfl, rfl, rfl, rfl, ?_⟩
    by_cases hns : strElem (strippedKey kw.1) hp.noSerialize = true
    · simp only [hns, if_true]
      rw [strElem_eraseFirst_self _ _ hnd]
      simp
    · rw [Bool.not_eq_true] at hns
      simp [hns]

/-- Witness for C3: the amended statement on `hpFoo` and the colliding
unprefixed keyword `epoch = 9` (the original `epoch` is serializable and
stays so; value and object attributes unchanged; warning logged). -/
theorem claim_C3_witness :
    (processKwarg hpFoo ("epoch", .pnat 9)).vars = hpFoo.vars ∧
    (processKwarg hpFoo ("epoch", .pnat 9)).network = hpFoo.network ∧
    (processKwarg hpFoo ("epoch", .pnat 9)).optimizers = hpFoo.optimizers ∧
    (processKwarg hpFoo ("epoch", .pnat 9)).schedulers = hpFoo.schedulers ∧
    (processKwarg hpFoo ("epoch", .pnat 9)).warnings
      = hpFoo.warnings ++ [strippedKey "epoch"] ∧
    strElem (strippedKey "epoch")
        (processKwarg hpFoo ("epoch", .pnat 9)).noSerialize
      = (isExclKey "epoch" && strElem (strippedKey "epoch") hpFoo.noSerialize) :=
  claim_C3_collision_keeps_value_not_status hpFoo ("epoch", .pnat 9)
    (by decide) (by decide)

theorem mem_of_lookupA [DecidableEq κ] (l : List (κ × β)) (k : κ) (v : β)
    (h : lookupA l k = some v) : (k, v) ∈ l := by
  induction l with
  | nil => simp [lookupA] at h
  | cons p rest ih =>
    obtain ⟨k0, w⟩ := p
    by_cases h0 : k0 = k
    · subst h0
      simp [lookupA] at h
      subst h
      exact List.mem_cons_self _ _
    · simp only [lookupA, if_neg h0] at h
      exact List.mem_cons_of_mem _ (ih h)

theorem lookupA_map_append (t : HookTable α) (k : Nat) (fs : List α) (g : α)
    (hlk : lookupA t k = some fs) :
    lookupA (t.map (fun p => if p.1 = k then (p.1, p.2 ++ [g]) else p)) k
      = some (fs ++ [g]) := by
  induction t with
  | nil => simp [lookupA] at hlk
  | cons p rest ih =>
    obtain ⟨k0, fs0⟩ := p
    simp only [List.map_cons]
    by_cases h0 : k0 = k
    · subst h0
      rw [if_pos rfl]
      simp [lookupA] at hlk
      simp [lookupA, hlk]
    · rw [if_neg h0]
      simp only [lookupA, if_neg h0] at hlk ⊢
      exact ih hlk

theorem runHooks_infix (v : Nat) (t : HookTable α) (k : Nat) (fs : List α)
    (hlk : lookupA t k = some fs) (hv : v % k = 0) :
    ∃ pre post, runHooks v t = pre ++ fs ++ post := by
  induction t with
  | nil => simp [lookupA] at hlk
  | cons p rest ih =>
    obtain ⟨k0, fs0⟩ := p
    by_cases h0 : k0 = k
    · subst h0
      simp [lookupA] at hlk
      subst hlk
      exact ⟨[], runHooks v rest, by simp [runHooks, hv]⟩
    · simp only [lookupA, if_neg h0] at hlk
      obtain ⟨pre, post, hpp⟩ := ih hlk
      by_cases hv0 : v % k0 = 0
      · exact ⟨fs0 ++ pre, post, by simp [runHooks, hv0, hpp]⟩
      · exact ⟨pre, post, by simp [runHooks, hv0, hpp]⟩

/-- C5: for a hook table, a positive interval `k` whose registration list
is `fs`, and a counter value `v`: registering a further callback appends it
to `fs` (registration order is list order); when `v % k = 0` the whole list
`fs` appears contiguously and in registration order inside the dispatch
sequence of `_run_hooks(v, table)`; and a callback registered only under
`k` is invoked by the dispatch if and only if `v % k = 0`. -/
theorem claim_C5_dispatch_iff_and_order (α : Type) (t : HookTable α)
    (k : Nat) (fs : List α) (v : Nat) (g : α) (hk : 0 < k)
    (hlk : lookupA t k = some fs) :
    (lookupA (registerHook t k g) k = some (fs ++ [g])) ∧
    (v % k = 0 → ∃ pre post, runHooks v t = pre ++ fs ++ post) ∧
    (∀ f, f ∈ fs → (∀ k' fs', (k', fs') ∈ t → f ∈ fs' → k' = k) →
      (f ∈ runHooks v t ↔ v % k = 0)) := by
  refine ⟨?_, ?_, ?_⟩
  · unfold registerHook
    rw [hlk]
    simp only [Option.isSome_some, if_true]
    exact lookupA_map_append t k fs g hlk
  · intro hv
    exact runHooks_infix v t k fs hlk hv
  · intro f hf huniq
    constructor
    · intro hmem
      obtain ⟨k', fs', hm', hf', hv'⟩ := (mem_runHooks v t f).mp hmem
      rw [← huniq k' fs' hm' hf']
      exact hv'
    · intro hv
      exact (mem_runHooks v t f).mpr ⟨k, fs, mem_of_lookupA t k fs hlk, hf, hv⟩

/-- Witness for C5 on the concrete table with callbacks 10 and 11 under
interval 2, dispatch value 4, and a further registration of callback 12. -/
theorem claim_C5_witness :
    (lookupA (registerHook tableTwo 2 12) 2 = some ([10, 11] ++ [12])) ∧
    (4 % 2 = 0 → ∃ pre post, runHooks 4 tableTwo = pre ++ [10, 11] ++ post) ∧
    (∀ f, f ∈ [10, 11] →
      (∀ k' fs', (k', fs') ∈ tableTwo → f ∈ fs' → k' = 2) →
      (f ∈ runHooks 4 tableTwo ↔ 4 % 2 = 0)) :=
  claim_C5_dispatch_iff_and_order Nat tableTwo 2 [10, 11] 4 12
    (by decide) (by decide)

theorem restoreAll_ok (restore : β → Nat → β) (xs : List β) (ss : List Nat)
    (h : xs.length ≤ ss.length) :
    ∃ ys, restoreAll restore xs ss = .ok ys := by
  induction xs generalizing ss with
  | nil => exact ⟨[], rfl⟩
  | cons x xs ih =>
    cases ss with
    | nil => simp at h
    | cons s ss =>
      obtain ⟨ys, hys⟩ := ih ss (by simpa using h)
      exact ⟨restore x s :: ys, by simp [restoreAll, hys, Except.map]⟩

theorem loadOptims_fields (hp : HyperParameters) (r : SavedRecord)
    (hp2 : HyperParameters) (h : loadOptims hp r = .ok hp2) :
    hp2.vars = hp.vars ∧ hp2.noSerialize = hp.noSerialize ∧
    hp2.network = hp.network ∧ hp2.schedulers = hp.schedulers := by
  unfold loadOptims at h
  split at h
  · injection h with h
    subst h
    exact ⟨rfl, rfl, rfl, rfl⟩
  · rename_i os hos
    split at h
    · cases h
    · rename_i sts hsts
      cases hr : restoreAll (fun o s => { o with sd := s }) os sts with
      | error e =>
        rw [hr] at h
        simp [Except.map] at h
      | ok ys =>
        rw [hr] at h
        simp only [Except.map] at h
        injection h with h
        subst h
        exact ⟨rfl, rfl, rfl, rfl⟩

theorem loadScheds_fields (hp : HyperParameters) (r : SavedRecord)
    (hp2 : HyperParameters) (h : loadScheds hp r = .ok hp2) :
    hp2.vars = hp.vars ∧ hp2.noSerialize = hp.noSerialize ∧
    hp2.network = hp.network ∧ hp2.optimizers = hp.optimizers := by
  unfold loadScheds at h
  split at h
  · injection h with h
    subst h
    exact ⟨rfl, rfl, rfl, rfl⟩
  · rename_i ss hss
    split at h
    · cases h
    · rename_i sts hsts
      cases hr : restoreAll (fun s st => { s with sd := st }) ss sts with
      | error e =>
        rw [hr] at h
        simp [Except.map] at h
      | ok ys =>
        rw [hr] at h
        simp only [Except.map] at h
        injection h with h
        subst h
        exact ⟨rfl, rfl, rfl, rfl⟩

theorem loadOptims_exists (hp : HyperParameters) (r : SavedRecord)
    (h : ∀ os, hp.optimizers = some os →
      ∃ sts, r.optStates = some sts ∧ os.length ≤ sts.length) :
    ∃ hp2, loadOptims hp r = .ok hp2 := by
  unfold loadOptims
  cases ho : hp.optimizers with
  | none => exact ⟨hp, rfl⟩
  | some os =>
    obtain ⟨sts, hsts, hlen⟩ := h os ho
    rw [hsts]
    obtain ⟨ys, hys⟩ := restoreAll_ok (fun o s => { o with sd := s }) os sts hlen
    exact ⟨{ hp with optimizers := some ys }, by simp [hys, Except.map]⟩

theorem loadScheds_exists (hp : HyperParameters) (r : SavedRecord)
    (h : ∀ ss, hp.schedulers = some ss →
      ∃ sts, r.schedStates = some sts ∧ ss.length ≤ sts.length) :
    ∃ hp2, loadScheds hp r = .ok hp2 := by
  unfold loadScheds
  cases ho : hp.schedulers with
  | none => exact ⟨hp, rfl⟩
  | some ss =>
    obtain ⟨sts, hsts, hlen⟩ := h ss ho
    rw [hsts]
    obtain ⟨ys, hys⟩ := restoreAll_ok (fun s st => { s with sd := st }) ss sts hlen
    exact ⟨{ hp with schedulers := some ys }, by simp [hys, Except.map]⟩

theorem foldl_hpSetattr_fields (L : List (String × PVal))
    (hp : HyperParameters) :
    (L.foldl (fun h kv => hpSetattr h kv.1 kv.2) hp).network = hp.network ∧
    (L.foldl (fun h kv => hpSetattr h kv.1 kv.2) hp).noSerialize
      = hp.noSerialize ∧
    (L.foldl (fun h kv => hpSetattr h kv.1 kv.2) hp).vars
      = L.foldl (fun vs kv => updateA vs kv.1 kv.2) hp.vars := by
  induction L generalizing hp with
  | nil => exact ⟨rfl, rfl, rfl⟩
  | cons kv rest ih =>
    simp only [List.foldl_cons]
    exact ih (hpSetattr hp kv.1 kv.2)

/-- C6 (counterexample): an excluded field of the fresh store is not left
untouched by `load` when the original store serialized a field of the same
name.  `hpFoo` (extra field `foo = 1`, serializable) and `hpFooExcluded`
(extra field `foo = 2`, excluded) are both constructible with the same
network and absent optimizers/schedulers; loading `hpFoo`'s record onto
`hpFooExcluded` overwrites the excluded `foo` with `1`. -/
theorem claim_C6_counterexample :
    (mkHyperParameters net0 .absent .absent 1 none [("foo", .pnat 1)]).map
        (fun hp => (hp.vars, hp.noSerialize))
      = .ok (hpFoo.vars, hpFoo.noSerialize) ∧
    (mkHyperParameters net0 .absent .absent 1 none [("_foo", .pnat 2)]).map
        (fun hp => (hp.vars, hp.noSerialize))
      = .ok (hpFooExcluded.vars, hpFooExcluded.noSerialize) ∧
    strElem "foo" hpFooExcluded.noSerialize = true ∧
    lookupA hpFooExcluded.vars "foo" = some (.pnat 2) ∧
    (hpFooExcluded.load hpFoo.save false).map (fun h => lookupA h.vars "foo")
      = .ok (some (.pnat 1)) ∧
    some (PVal.pnat 1) ≠ some (PVal.pnat 2) := by
  refine ⟨by decide, by decide, by decide, by decide, by decide, by decide⟩

/-- C6 (amended): `save` on a store followed by `load` on a fresh store
with the same optimizer/scheduler shapes succeeds, restores the network
snapshot, and restores every non-excluded field of the original to an
equal value on the fresh store; a field marked excluded on the fresh store
is untouched by `load` provided it is absent from the saved record — that
is, it was also excluded (or simply absent) on the original store.  (The
counterexample shows the unconditional form is false: an excluded-on-fresh
field that the original serialized is overwritten.) -/
theorem claim_C6_save_load_roundtrip (hp fresh : HyperParameters)
    (hnd : (hp.vars.map Prod.fst).Nodup)
    (hopt : Option.map List.length fresh.optimizers
      = Option.map List.length hp.optimizers)
    (hsched : Option.map List.length fresh.schedulers
      = Option.map List.length hp.schedulers) :
    ∃ fresh', fresh.load hp.save false = .ok fresh' ∧
      fresh'.network.sd = hp.network.sd ∧
      (∀ k v, (k, v) ∈ hp.vars → strElem k hp.noSerialize = false →
        lookupA fresh'.vars k = some v) ∧
      (∀ k, strElem k fresh.noSerialize = true →
        strElem k hp.noSerialize = true ∨ lookupA hp.vars k = none →
        lookupA fresh'.vars k = lookupA fresh.vars k) := by
  have hopt1 : ∀ os,
      ({ fresh with network := { fresh.network with sd := hp.save.networkState } } : HyperParameters).optimizers = some os →
      ∃ sts, hp.save.optStates = some sts ∧ os.length ≤ sts.length := by
    intro os hos
    have hfo : fresh.optimizers = some os := hos
    cases hps : hp.optimizers with
    | none =>
      rw [hfo, hps] at hopt
      simp at hopt
    | some os0 =>
      refine ⟨os0.map Optim.sd, ?_, ?_⟩
      · simp [HyperParameters.save, hps]
      · rw [hfo, hps] at hopt
        simp at hopt
        simp [hopt]
  obtain ⟨hp2, h2⟩ := loadOptims_exists
    { fresh with network := { fresh.network with sd := hp.save.networkState } }
    hp.save hopt1
  obtain ⟨h2v, h2n, h2net, h2s⟩ := loadOptims_fields _ _ _ h2
  have hsched1 : ∀ ss, hp2.schedulers = some ss →
      ∃ sts, hp.save.schedStates = some sts ∧ ss.length ≤ sts.length := by
    intro ss hss
    rw [h2s] at hss
    have hfs : fresh.schedulers = some ss := hss
    cases hps : hp.schedulers with
    | none =>
      rw [hfs, hps] at hsched
      simp at hsched
    | some ss0 =>
      refine ⟨ss0.map Sched.sd, ?_, ?_⟩
      · simp [HyperParameters.save, hps]
      · rw [hfs, hps] at hsched
        simp at hsched
        simp [hsched]
  obtain ⟨hp3, h3⟩ := loadScheds_exists hp2 hp.save hsched1
  obtain ⟨h3v, h3n, h3net, h3o⟩ := loadScheds_fields _ _ _ h3
  have hfold := foldl_hpSetattr_fields hp.save.fields hp3
  have hndf : (hp.save.fields.map Prod.fst).Nodup := by
    have hsub : hp.save.fields.Sublist hp.vars := by
      simp only [HyperParameters.save]
      exact List.filter_sublist _
    exact List.Nodup.sublist (List.Sublist.map Prod.fst hsub) hnd
  refine ⟨{ hp.save.fields.foldl (fun h kv => hpSetattr h kv.1 kv.2) hp3 with
      noSerialize := hp.save.savedNoSerialize }, ?_, ?_, ?_, ?_⟩
  · unfold HyperParameters.load
    rw [h2]
    simp only [Except.bind]
    rw [h3]
  · show ((hp.save.fields.foldl (fun h kv => hpSetattr h kv.1 kv.2) hp3).network).sd
      = hp.network.sd
    rw [hfold.1, h3net, h2net]
    rfl
  · intro k v hkv hkex
    have hmem : (k, v) ∈ hp.save.fields := by
      simp only [HyperParameters.save, List.mem_filter]
      exact ⟨hkv, by simp [hkex]⟩
    have hlkf : lookupA hp.save.fields k = some v :=
      lookupA_of_mem_nodup _ _ _ hndf hmem
    show lookupA ((hp.save.fields.foldl (fun h kv => hpSetattr h kv.1 kv.2) hp3).vars) k
      = some v
    rw [hfold.2.2]
    exact foldl_updateA_some _ _ _ _ hndf hlkf
  · intro k hkfresh hcase
    have hnone : lookupA hp.save.fields k = none := by
      apply lookupA_eq_none_of_not_mem_keys
      intro hkin
      obtain ⟨⟨k', w⟩, hmem, hfst⟩ := List.mem_map.mp hkin
      simp only at hfst
      subst hfst
      have hm2 : (k', w) ∈ hp.vars.filter
          (fun p => !(strElem p.1 hp.noSerialize)) := by
        simpa [HyperParameters.save] using hmem
      have hm3 := List.mem_filter.mp hm2
      rcases hcase with hex | habs
      · rw [hex] at hm3
        simp at hm3
      · have hlk := lookupA_of_mem_nodup hp.vars k' w hnd hm3.1
        rw [habs] at hlk
        cases hlk
    show lookupA ((hp.save.fields.foldl (fun h kv => hpSetattr h kv.1 kv.2) hp3).vars) k
      = lookupA fresh.vars k
    rw [hfold.2.2, foldl_updateA_none _ _ _ hnone, h3v, h2v]

/-- Witness for C6: the amended round trip applied to `hpFoo` saved and
reloaded onto a fresh store of the same shapes (here `hpFoo` itself). -/
theorem claim_C6_witness :
    ∃ fresh', hpFoo.load hpFoo.save false = .ok fresh' ∧
      fresh'.network.sd = hpFoo.network.sd ∧
      (∀ k v, (k, v) ∈ hpFoo.vars → strElem k hpFoo.noSerialize = false →
        lookupA fresh'.vars k = some v) ∧
      (∀ k, strElem k hpFoo.noSerialize = true →
        strElem k hpFoo.noSerialize = true ∨ lookupA hpFoo.vars k = none →
        lookupA fresh'.vars k = lookupA hpFoo.vars k) :=
  claim_C6_save_load_roundtrip hpFoo hpFoo (by decide) rfl rfl

theorem startValues_pair (v i : Nat) (t : List Event) :
    startValues (.batchStartHooks v :: .processBatch i :: t)
      = (i, v) :: startValues t := rfl

theorem startValues_train (t : List Event) :
    startValues (.trainBatch :: t) = startValues t := rfl

theorem startValues_batchEnd (v : Nat) (t : List Event) :
    startValues (.batchEndHooks v :: t) = startValues t := rfl

theorem startValues_nil : startValues [] = [] := rfl

theorem runBatches_spec (S N : Nat) (quitO sigintO : Nat → Bool) :
    ∀ fuel idx batch,
      startValues (runBatches S N quitO sigintO fuel idx batch).trace
        = (List.range' idx
            (countProcess (runBatches S N quitO sigintO fuel idx batch).trace)).map
            (fun i => (i, batch + (i / S - idx / S) + 1)) ∧
      countStart (runBatches S N quitO sigintO fuel idx batch).trace
        = countProcess (runBatches S N quitO sigintO fuel idx batch).trace ∧
      countTrain (runBatches S N quitO sigintO fuel idx batch).trace
        = (idx + countProcess (runBatches S N quitO sigintO fuel idx batch).trace) / S
          - idx / S := by
  intro fuel
  induction fuel with
  | zero =>
    intro idx batch
    refine ⟨rfl, rfl, ?_⟩
    show countTrain [] = (idx + countProcess []) / S - idx / S
    simp [countTrain, countProcess]
  | succ fuel ih =>
    intro idx batch
    by_cases hmod : (idx + 1) % S ≠ 0
    · -- mini-batch does not complete an accumulation batch
      obtain ⟨ihS, ihC, ihT⟩ := ih (idx + 1) batch
      have hnd : ¬ S ∣ (idx + 1) := by
        rw [Nat.dvd_iff_mod_eq_zero]
        exact hmod
      have hdiv : (idx + 1) / S = idx / S := by
        rw [Nat.succ_div, if_neg hnd, Nat.add_zero]
      have hrw : runBatches S N quitO sigintO (fuel + 1) idx batch
          = { runBatches S N quitO sigintO fuel (idx + 1) batch with
              trace := .batchStartHooks (batch + 1) :: .processBatch idx ::
                (runBatches S N quitO sigintO fuel (idx + 1) batch).trace } := by
        simp only [runBatches, if_pos hmod, Nat.add_sub_cancel]
      rw [hrw]
      have hc : countProcess (Event.batchStartHooks (batch + 1) ::
            Event.processBatch idx ::
            (runBatches S N quitO sigintO fuel (idx + 1) batch).trace)
          = countProcess (runBatches S N quitO sigintO fuel (idx + 1) batch).trace
            + 1 := by
        simp [countProcess, List.countP_cons, isProcessEvent]
      refine ⟨?_, ?_, ?_⟩
      · show startValues (Event.batchStartHooks (batch + 1) ::
            Event.processBatch idx ::
            (runBatches S N quitO sigintO fuel (idx + 1) batch).trace) = _
        rw [startValues_pair, ihS, hdiv, hc, List.range'_succ, List.map_cons]
        simp [Nat.sub_self]
      · show countStart (Event.batchStartHooks (batch + 1) ::
            Event.processBatch idx ::
            (runBatches S N quitO sigintO fuel (idx + 1) batch).trace) = _
        simp only [countStart, countProcess, List.countP_cons, isStartEvent,
          isProcessEvent] at ihC ⊢
        omega
      · show countTrain (Event.batchStartHooks (batch + 1) ::
            Event.processBatch idx ::
            (runBatches S N quitO sigintO fuel (idx + 1) batch).trace) = _
        have hct : countTrain (Event.batchStartHooks (batch + 1) ::
              Event.processBatch idx ::
              (runBatches S N quitO sigintO fuel (idx + 1) batch).trace)
            = countTrain (runBatches S N quitO sigintO fuel (idx + 1) batch).trace := by
          simp [countTrain, List.countP_cons, isTrainEvent]
        have hal : idx + 1 + countProcess
              (runBatches S N quitO sigintO fuel (idx + 1) batch).trace
            = idx + (countProcess
              (runBatches S N quitO sigintO fuel (idx + 1) batch).trace + 1) := by
          omega
        rw [hct, hc, ihT, hdiv, hal]
    · -- the accumulation batch completes here
      have hne : ¬ ((idx + 1) % S ≠ 0) := hmod
      push_neg at hmod
      have hdvd : S ∣ (idx + 1) := by
        rw [Nat.dvd_iff_mod_eq_zero]
        exact hmod
      have hdiv1 : (idx + 1) / S = idx / S + 1 := by
        rw [Nat.succ_div, if_pos hdvd]
      by_cases hq : (quitO ((idx + 1) / S) || sigintO ((idx + 1) / S)) = true
      · -- quit()/sigint: return from the whole loop
        have hrw : runBatches S N quitO sigintO (fuel + 1) idx batch
            = { trace := [.batchStartHooks (batch + 1), .processBatch idx,
                          .trainBatch, .batchEndHooks (batch + 1)],
                batch := batch + 1, returned := true } := by
          simp only [runBatches, if_neg hne, if_pos hq]
        rw [hrw]
        refine ⟨?_, ?_, ?_⟩
        · show startValues [Event.batchStartHooks (batch + 1),
              Event.processBatch idx, Event.trainBatch,
              Event.batchEndHooks (batch + 1)] = _
          rw [startValues_pair, startValues_train, startValues_batchEnd,
            startValues_nil]
          have hc1 : countProcess [Event.batchStartHooks (batch + 1),
              Event.processBatch idx, Event.trainBatch,
              Event.batchEndHooks (batch + 1)] = 1 := by
            simp [countProcess, List.countP_cons, isProcessEvent]
          rw [hc1, List.range'_one]
          simp [Nat.sub_self]
        · simp [countStart, countProcess, List.countP_cons, isStartEvent,
            isProcessEvent]
        · have hc1 : countProcess [Event.batchStartHooks (batch + 1),
              Event.processBatch idx, Event.trainBatch,
              Event.batchEndHooks (batch + 1)] = 1 := by
            simp [countProcess, List.countP_cons, isProcessEvent]
          rw [hc1]
          have hct : countTrain [Event.batchStartHooks (batch + 1),
              Event.processBatch idx, Event.trainBatch,
              Event.batchEndHooks (batch + 1)] = 1 := by
            simp [countTrain, List.countP_cons, isTrainEvent]
          rw [hct, hdiv1]
          omega
      · by_cases hbrk : N - idx ≤ S
        · -- not enough mini-batches left: break out of the epoch
          have hrw : runBatches S N quitO sigintO (fuel + 1) idx batch
              = { trace := [.batchStartHooks (batch + 1), .processBatch idx,
                            .trainBatch, .batchEndHooks (batch + 1)],
                  batch := batch + 1, returned := false } := by
            simp only [runBatches, if_neg hne, if_neg hq, if_pos hbrk]
          rw [hrw]
          refine ⟨?_, ?_, ?_⟩
          · show startValues [Event.batchStartHooks (batch + 1),
                Event.processBatch idx, Event.trainBatch,
                Event.batchEndHooks (batch + 1)] = _
            rw [startValues_pair, startValues_train, startValues_batchEnd,
              startValues_nil]
            have hc1 : countProcess [Event.batchStartHooks (batch + 1),
                Event.processBatch idx, Event.trainBatch,
                Event.batchEndHooks (batch + 1)] = 1 := by
              simp [countProcess, List.countP_cons, isProcessEvent]
            rw [hc1, List.range'_one]
            simp [Nat.sub_self]
          · simp [countStart, countProcess, List.countP_cons, isStartEvent,
              isProcessEvent]
          · have hc1 : countProcess [Event.batchStartHooks (batch + 1),
                Event.processBatch idx, Event.trainBatch,
                Event.batchEndHooks (batch + 1)] = 1 := by
              simp [countProcess, List.countP_cons, isProcessEvent]
            rw [hc1]
            have hct : countTrain [Event.batchStartHooks (batch + 1),
                Event.processBatch idx, Event.trainBatch,
                Event.batchEndHooks (batch + 1)] = 1 := by
              simp [countTrain, List.countP_cons, isTrainEvent]
            rw [hct, hdiv1]
            omega
        · -- continue with the next accumulation batch
          obtain ⟨ihS, ihC, ihT⟩ := ih (idx + 1) (batch + 1)
          have hrw : runBatches S N quitO sigintO (fuel + 1) idx batch
              = { runBatches S N quitO sigintO fuel (idx + 1) (batch + 1) with
                  trace := .batchStartHooks (batch + 1) :: .processBatch idx ::
                    .trainBatch :: .batchEndHooks (batch + 1) ::
                    (runBatches S N quitO sigintO fuel (idx + 1) (batch + 1)).trace } := by
            simp only [runBatches, if_neg hne, if_neg hq, if_neg hbrk]
          rw [hrw]
          have hc : countProcess (Event.batchStartHooks (batch + 1) ::
                Event.processBatch idx :: Event.trainBatch ::
                Event.batchEndHooks (batch + 1) ::
                (runBatches S N quitO sigintO fuel (idx + 1) (batch + 1)).trace)
              = countProcess
                  (runBatches S N quitO sigintO fuel (idx + 1) (batch + 1)).trace
                + 1 := by
            simp [countProcess, List.countP_cons, isProcessEvent]
          refine ⟨?_, ?_, ?_⟩
          · show startValues (Event.batchStartHooks (batch + 1) ::
                Event.processBatch idx :: Event.trainBatch ::
                Event.batchEndHooks (batch + 1) ::
                (runBatches S N quitO sigintO fuel (idx + 1) (batch + 1)).trace) = _
            rw [startValues_pair, startValues_train, startValues_batchEnd,
              ihS, hc, List.range'_succ, List.map_cons]
            refine List.cons_eq_cons.mpr ⟨by simp [Nat.sub_self], ?_⟩
            apply List.map_congr_left
            intro i hi
            have hi1 : idx + 1 ≤ i := (List.mem_range'_1.mp hi).1
            have hdm : (idx + 1) / S ≤ i / S := Nat.div_le_div_right hi1
            rw [hdiv1] at hdm ⊢
            simp only [Prod.mk.injEq]
            exact ⟨by trivial, by omega⟩
          · show countStart (Event.batchStartHooks (batch + 1) ::
                Event.processBatch idx :: Event.trainBatch ::
                Event.batchEndHooks (batch + 1) ::
                (runBatches S N quitO sigintO fuel (idx + 1) (batch + 1)).trace) = _
            simp only [countStart, countProcess, List.countP_cons, isStartEvent,
              isProcessEvent] at ihC ⊢
            omega
          · show countTrain (Event.batchStartHooks (batch + 1) ::
                Event.processBatch idx :: Event.trainBatch ::
                Event.batchEndHooks (batch + 1) ::
                (runBatches S N quitO sigintO fuel (idx + 1) (batch + 1)).trace) = _
            have hct : countTrain (Event.batchStartHooks (batch + 1) ::
                  Event.processBatch idx :: Event.trainBatch ::
                  Event.batchEndHooks (batch + 1) ::
                  (runBatches S N quitO sigintO fuel (idx + 1) (batch + 1)).trace)
                = countTrain
                    (runBatches S N quitO sigintO fuel (idx + 1) (batch + 1)).trace
                  + 1 := by
              simp [countTrain, List.countP_cons, isTrainEvent]
            have hal : idx + 1 + countProcess
                  (runBatches S N quitO sigintO fuel (idx + 1) (batch + 1)).trace
                = idx + (countProcess
                  (runBatches S N quitO sigintO fuel (idx + 1) (batch + 1)).trace + 1) := by
              omega
            have hmono : (idx + 1) / S ≤ (idx + (countProcess
                (runBatches S N quitO sigintO fuel (idx + 1) (batch + 1)).trace + 1)) / S :=
              Nat.div_le_div_right (by omega)
            rw [hdiv1] at hmono
            rw [hct, hc, ihT, hdiv1, hal]
            omega

/-- C10: in an epoch's batch loop with `batch_subdivisions = S > 0` and
starting batch counter `b0`, the batch-start hook dispatch runs exactly
once per processed mini-batch, the mini-batch at position `i` is dispatched
with counter value `b0 + i / S + 1` (the counter is incremented before each
mini-batch and decremented back after each one that does not complete the
accumulation batch, so all `S` mini-batches of an accumulation group share
one value), `train_batch` runs once per `S` processed mini-batches, and for
every completed accumulation group `g` all of its `S` dispatches carry the
same value `b0 + g + 1` — hence a batch-start hook whose interval divides
that value fires `S` times for one counter value. -/
theorem claim_C10_batch_start_dispatch_per_group (S N b0 : Nat) (hS : 0 < S)
    (quitO sigintO : Nat → Bool) :
    startValues (epochBatchRun S N b0 quitO sigintO).trace
      = (List.range (countProcess (epochBatchRun S N b0 quitO sigintO).trace)).map
          (fun i => (i, b0 + i / S + 1)) ∧
    countStart (epochBatchRun S N b0 quitO sigintO).trace
      = countProcess (epochBatchRun S N b0 quitO sigintO).trace ∧
    countTrain (epochBatchRun S N b0 quitO sigintO).trace
      = countProcess (epochBatchRun S N b0 quitO sigintO).trace / S ∧
    ∀ g j, g < countTrain (epochBatchRun S N b0 quitO sigintO).trace → j < S →
      (g * S + j, b0 + g + 1)
        ∈ startValues (epochBatchRun S N b0 quitO sigintO).trace := by
  obtain ⟨hSV, hC, hT⟩ := runBatches_spec S N quitO sigintO N 0 b0
  have hSV' : startValues (epochBatchRun S N b0 quitO sigintO).trace
      = (List.range (countProcess (epochBatchRun S N b0 quitO sigintO).trace)).map
          (fun i => (i, b0 + i / S + 1)) := by
    show startValues (runBatches S N quitO sigintO N 0 b0).trace = _
    rw [hSV, List.range_eq_range']
    simp only [Nat.zero_div, Nat.sub_zero]
    rfl
  have hT' : countTrain (epochBatchRun S N b0 quitO sigintO).trace
      = countProcess (epochBatchRun S N b0 quitO sigintO).trace / S := by
    show countTrain (runBatches S N quitO sigintO N 0 b0).trace = _
    rw [hT]
    simp only [Nat.zero_add, Nat.zero_div, Nat.sub_zero]
    rfl
  refine ⟨hSV', hC, hT', ?_⟩
  intro g j hg hj
  rw [hT'] at hg
  have hic : g * S + j <
      countProcess (epochBatchRun S N b0 quitO sigintO).trace := by
    have h1 : (g + 1) * S
        ≤ (countProcess (epochBatchRun S N b0 quitO sigintO).trace / S) * S :=
      Nat.mul_le_mul_right S (by omega)
    have h2 : (countProcess (epochBatchRun S N b0 quitO sigintO).trace / S) * S
        ≤ countProcess (epochBatchRun S N b0 quitO sigintO).trace :=
      Nat.div_mul_le_self _ S
    have h3 : (g + 1) * S = g * S + S := by ring
    omega
  rw [hSV']
  apply List.mem_map.mpr
  refine ⟨g * S + j, List.mem_range.mpr hic, ?_⟩
  have hdq : (g * S + j) / S = g := by
    have hgs : g * S + j = S * g + j := by ring
    rw [hgs, Nat.mul_add_div hS, Nat.div_eq_of_lt hj, Nat.add_zero]
  rw [hdq]

/-- Witness for C10: with `S = 2`, a data source of 4 mini-batches and
starting counter 0, mini-batch 1 (the second of the first accumulation
group) is dispatched with counter value 1. -/
theorem claim_C10_witness :
    ((0 * 2 + 1 : Nat), (0 + 0 + 1 : Nat))
      ∈ startValues (epochBatchRun 2 4 0 (fun _ => false) (fun _ => false)).trace :=
  (claim_C10_batch_start_dispatch_per_group 2 4 0 (by decide)
      (fun _ => false) (fun _ => false)).2.2.2 0 1 (by decide) (by decide)

/-- C1 (counterexample): with `batch_size = 8`, `mini_batch_size = 4`
(`batch_subdivisions = 2`) and a data source of 10 mini-batches, the
number of `train_batch` invocations in one epoch is not 4: the early-break
condition `len(loader) - idx <= batch_subdivisions` is false at `idx = 7`
(`10 - 7 = 3 > 2`), so mini-batches 8 and 9 are not discarded and a fifth
accumulation batch completes. -/
theorem claim_C1_counterexample :
    (mkHyperParameters net0 .absent .absent 8 (some 4) []).map
        (fun hp => hp.batch_subdivisions) = .ok (some 2) ∧
    ¬ (countTrain (epochBatchRun 2 10 0 (fun _ => false) (fun _ => false)).trace
        = 4) := by
  refine ⟨by decide, by decide⟩

/-- C1 (amended): with `batch_size = 8`, `mini_batch_size = 4`
(`batch_subdivisions = 2`) and a data source of 10 mini-batches, exactly
5 accumulation-batch completions occur (mini-batches 0-1, 2-3, 4-5, 6-7
and 8-9), `train_batch` is invoked exactly 5 times, no mini-batch is
discarded (all 10 are processed, in order), and the epoch ends through the
early break after the fifth completion (`10 - 9 = 1 ≤ 2`), not through a
return. -/
theorem claim_C1_epoch_trace :
    (mkHyperParameters net0 .absent .absent 8 (some 4) []).map
        (fun hp => hp.batch_subdivisions) = .ok (some 2) ∧
    countTrain (epochBatchRun 2 10 0 (fun _ => false) (fun _ => false)).trace = 5 ∧
    (startValues (epochBatchRun 2 10 0 (fun _ => false) (fun _ => false)).trace).map
        Prod.fst = List.range 10 ∧
    (epochBatchRun 2 10 0 (fun _ => false) (fun _ => false)).returned = false := by
  refine ⟨by decide, by decide, by decide, by decide⟩
